import Mathlib

/-!
Verification of the dataset-versioning pipeline of VOX Personalis.

This file gives a shallow embedding of the core pipeline stages
(`scripts/dataset_versioning/`): the cleaning engine (`cleaning.py`), the
duration-stratified splitter (`splitting.py`), the temporal-leakage detector
(`temporal.py`), the validator (`validation.py`) and the excluded-list CSV
writer (`reporting.py`), together with theorems about the invariants these
stages are documented to maintain.

Modelling conventions:
* a pandas `DataFrame` of inventory rows is a `List Record`; the frame's
  integer index is recovered with `List.enum`, whose first components are
  exactly the row positions (always distinct, as a pandas index is here);
* Python floats are modelled as exact rationals (`ℚ`), machine timestamps as
  `ℤ`; nullable columns are `Option` fields, so a pandas `NaN` is `none`;
* pandas `sort_values` is modelled with `List.insertionSort` on the same key.
  The library sort is not stable in general, but every theorem below either
  does not depend on tie order or carries distinctness hypotheses making the
  sorted order unique;
* pandas `duplicated(keep=first)` treats `NaN` keys as equal to each other;
  the embedding mirrors this because `Option.instBEq` makes `none == none`;
* the decimal rendering of a float by `f"{x:.1f}"` is modelled by `fmt1`,
  which rounds the exact rational half-up; the binary-float rounding of the
  display string is not modelled (no claim depends on it).
-/

namespace DatasetVersioning

/-- One inventory record after hash computation (`compute_hashes_for_dataframe`
has already attached the three hash columns from `hashing.py`). Field names
follow the CSV columns required by `cli.py`. -/
structure Record where
  manifest_row_index : Nat
  file_name : String
  audio_read_ok : Bool
  duration_sec : Option ℚ
  transcript_is_blank : Bool
  audio_sha256 : Option String
  transcript_sha256 : String
  pair_sha256 : Option String
  timestamp_ms : Option ℤ
  deriving DecidableEq, Repr

/-- Exclusion reason constant from `cleaning.py`. -/
def REASON_AUDIO_UNREADABLE : String := "audio_unreadable"

/-- Exclusion reason constant from `cleaning.py`. -/
def REASON_DURATION_INVALID : String := "duration_invalid"

/-- Exclusion reason constant from `cleaning.py`. -/
def REASON_TRANSCRIPT_BLANK : String := "transcript_blank"

/-- Exclusion reason constant from `cleaning.py`. -/
def REASON_DUPLICATE_PAIR : String := "duplicate_audio_transcript"

/-- Cleaning rule 1 mask: `df["audio_read_ok"] == False`. -/
def rule1Mask (r : Record) : Bool := r.audio_read_ok == false

/-- Cleaning rule 2 mask: `df["duration_sec"].isna() | (df["duration_sec"] <= 0)`.
In pandas `NaN <= 0` is false, so the mask is the disjunction below. -/
def rule2Mask (r : Record) : Bool :=
  match r.duration_sec with
  | none => true
  | some d => decide (d ≤ 0)

/-- Cleaning rule 3 mask: `df["transcript_is_blank"] == True`. -/
def rule3Mask (r : Record) : Bool := r.transcript_is_blank == true

/-- One row of the excluded-records audit trail built by
`apply_cleaning_rules`: the dict keys appended to `excluded_records`. -/
structure ExcludedRecord where
  file_name : String
  manifest_row_index : Nat
  excluded_reason : String
  audio_sha256 : Option String
  transcript_sha256 : String
  deriving DecidableEq, Repr

/-- Projection of a record into its excluded-list audit entry,
mirroring the dict literal in `apply_cleaning_rules`. -/
def mkExcluded (reason : String) (r : Record) : ExcludedRecord :=
  ⟨r.file_name, r.manifest_row_index, reason, r.audio_sha256, r.transcript_sha256⟩

/-- Rows excluded by rule 1, with their frame index
(`df[remaining_mask & rule1_mask]`, where `remaining_mask` is still all-true). -/
def rule1Excluded (df : List Record) : List (Nat × Record) :=
  df.enum.filter (fun p => rule1Mask p.2)

/-- Rows surviving rule 1 (`remaining_mask` after rule 1). -/
def survivors1 (df : List Record) : List (Nat × Record) :=
  df.enum.filter (fun p => !rule1Mask p.2)

/-- Rows excluded by rule 2 (`df[remaining_mask & rule2_mask]`). -/
def rule2Excluded (df : List Record) : List (Nat × Record) :=
  (survivors1 df).filter (fun p => rule2Mask p.2)

/-- Rows surviving rules 1-2. -/
def survivors2 (df : List Record) : List (Nat × Record) :=
  (survivors1 df).filter (fun p => !rule2Mask p.2)

/-- Rows excluded by rule 3 (`df[remaining_mask & rule3_mask]`). -/
def rule3Excluded (df : List Record) : List (Nat × Record) :=
  (survivors2 df).filter (fun p => rule3Mask p.2)

/-- Rows surviving rules 1-3 (`remaining_df` before the duplicate rule),
still in frame order. -/
def survivors3 (df : List Record) : List (Nat × Record) :=
  (survivors2 df).filter (fun p => !rule3Mask p.2)

/-- Sort key of `remaining_df.sort_values("manifest_row_index")`. -/
def mriLE (p q : Nat × Record) : Prop :=
  p.2.manifest_row_index ≤ q.2.manifest_row_index

instance : DecidableRel mriLE := fun p q =>
  inferInstanceAs (Decidable (p.2.manifest_row_index ≤ q.2.manifest_row_index))

instance : IsTotal (Nat × Record) mriLE := ⟨fun p q => Nat.le_total _ _⟩

instance : IsTrans (Nat × Record) mriLE := ⟨fun _ _ _ => Nat.le_trans⟩

/-- The rule-1-to-3 survivors sorted by `manifest_row_index`
(`remaining_df.sort_values("manifest_row_index")`). -/
def sortedSurvivors (df : List Record) : List (Nat × Record) :=
  List.insertionSort mriLE (survivors3 df)

/-- The walk performed by `remaining_df.duplicated(subset=["pair_sha256"],
keep="first")`: each row is flagged when its `pair_sha256` has already been
seen on an earlier row.  pandas treats `NaN` keys as equal to one another,
which the `Option String` `BEq` instance reproduces (`none == none`). -/
def dupMarks (seen : List (Option String)) : List (Nat × Record) → List ((Nat × Record) × Bool)
  | [] => []
  | p :: rest => (p, seen.contains p.2.pair_sha256) :: dupMarks (p.2.pair_sha256 :: seen) rest

/-- Rows excluded by rule 4 (`remaining_df[duplicate_mask]`), in the
sorted-by-`manifest_row_index` order in which the source appends them. -/
def dupExcluded (df : List Record) : List (Nat × Record) :=
  ((dupMarks [] (sortedSurvivors df)).filter (fun x => x.2 == true)).map (fun x => x.1)

/-- Rows left in `remaining_mask` after all four rules: the rule-1-to-3
survivors whose frame index was not cleared by the duplicate rule
(`remaining_mask[idx] = False`), still in frame order. -/
def includedPairs (df : List Record) : List (Nat × Record) :=
  (survivors3 df).filter (fun p => !(((dupExcluded df).map (fun q => q.1)).contains p.1))

/-- The cleaning engine `apply_cleaning_rules` (`cleaning.py`): partitions
the hashed frame into the included rows (in frame order, as
`df[remaining_mask]`) and the audit entries of the excluded rows (appended
rule by rule, duplicates last). -/
def apply_cleaning_rules (df : List Record) : List Record × List ExcludedRecord :=
  ((includedPairs df).map (fun p => p.2),
    (rule1Excluded df).map (fun p => mkExcluded REASON_AUDIO_UNREADABLE p.2) ++
    (rule2Excluded df).map (fun p => mkExcluded REASON_DURATION_INVALID p.2) ++
    (rule3Excluded df).map (fun p => mkExcluded REASON_TRANSCRIPT_BLANK p.2) ++
    (dupExcluded df).map (fun p => mkExcluded REASON_DUPLICATE_PAIR p.2))

/-! ### Stratified splitting (`splitting.py`) -/

/-- Split label written into the `split` column by `stratified_split`. -/
inductive SplitLabel
  | train
  | val
  | test
  deriving DecidableEq, Repr

/-- An included record together with its `duration_bin` column
(the output of `assign_duration_bins`; `none` models a `NaN` bin). -/
structure Binned where
  record : Record
  duration_bin : Option String
  deriving DecidableEq, Repr

/-- An included record with its `duration_bin` and `split` columns
(`none` in `split` models the initial `None` left on rows whose bin is `NaN`). -/
structure SplitRow where
  record : Record
  duration_bin : Option String
  split : Option SplitLabel
  deriving DecidableEq, Repr

/-- Key comparison of `bin_df.sort_values("pair_sha256")`: lexicographic on
the hex strings, with a missing hash (`NaN`) placed last as pandas does. -/
def pairKeyLE (a b : Option String) : Bool :=
  match a, b with
  | none, none => true
  | none, some _ => false
  | some _, none => true
  | some x, some y => decide (x ≤ y)

/-- Sort relation on indexed bin members used for the per-bin sort. -/
def pairLE (p q : Nat × Binned) : Prop :=
  pairKeyLE p.2.record.pair_sha256 q.2.record.pair_sha256 = true

instance : DecidableRel pairLE := fun p q =>
  inferInstanceAs (Decidable (_ = true))

/-- Ratio validation of `stratified_split`:
`0.999 <= train_ratio + val_ratio + test_ratio <= 1.001`. -/
def ratioCheckOK (rT rV rTe : ℚ) : Bool :=
  decide ((999 : ℚ)/1000 ≤ rT + rV + rTe) && decide (rT + rV + rTe ≤ (1001 : ℚ)/1000)

/-- Members of one duration bin with their frame indices
(`result[result["duration_bin"] == bin_label]`). -/
def binRowsOf (rows : List Binned) (b : String) : List (Nat × Binned) :=
  rows.enum.filter (fun q => q.2.duration_bin == some b)

/-- One bin sorted by `pair_sha256` (`bin_df.sort_values("pair_sha256")`). -/
def binSorted (rows : List Binned) (b : String) : List (Nat × Binned) :=
  List.insertionSort pairLE (binRowsOf rows b)

/-- Positional assignment inside a sorted bin: the first
`floor(n * train_ratio)` rows go to train, the next `floor(n * val_ratio)`
to val, the rest to test (`int(np.floor(...))` is an exact floor here
because floats are modelled as rationals). -/
def assignLabel (n : Nat) (rT rV : ℚ) (i : ℤ) : SplitLabel :=
  if i < ⌊(n : ℚ) * rT⌋ then SplitLabel.train
  else if i < ⌊(n : ℚ) * rT⌋ + ⌊(n : ℚ) * rV⌋ then SplitLabel.val
  else SplitLabel.test

/-- Number of rows of one duration bin. -/
def binSize (rows : List Binned) (b : String) : Nat :=
  (rows.filter (fun r => r.duration_bin == some b)).length

/-- The split row produced for one enumerated bin member: its rank in the
`pair_sha256`-sorted bin (found through its frame index) decides the label;
a `NaN` bin leaves the initial `None` split. -/
def splitRowOf (rows : List Binned) (rT rV : ℚ) (p : Nat × Binned) : SplitRow :=
  match p.2.duration_bin with
  | none => ⟨p.2.record, none, none⟩
  | some b =>
    ⟨p.2.record, some b,
      some (assignLabel (binSorted rows b).length rT rV
        (((binSorted rows b).findIdx (fun q => q.1 == p.1) : ℤ)))⟩

/-- The stratified splitter `stratified_split` (`splitting.py`).  The `seed`
argument is accepted exactly as in the source, which documents it for
reproducibility and never reads it: assignment is purely positional in the
`pair_sha256`-sorted order of each duration bin. -/
def stratified_split (rows : List Binned) (rT rV rTe : ℚ) (seed : ℤ) :
    Except String (List SplitRow) :=
  if ratioCheckOK rT rV rTe then
    Except.ok (rows.enum.map (splitRowOf rows rT rV))
  else Except.error "Split ratios must sum to 1.0"

/-- Number of output rows of one duration bin carrying one split label. -/
def countSplit (out : List SplitRow) (b : String) (lbl : SplitLabel) : Nat :=
  out.countP (fun s => s.duration_bin == some b && s.split == some lbl)

/-! ### Temporal leakage detection (`temporal.py`) -/

/-- Default session gap threshold (`DEFAULT_SESSION_GAP_MS`). -/
def DEFAULT_SESSION_GAP_MS : ℤ := 60000

/-- Key comparison of `result.sort_values("timestamp_ms")`; `NaN` last. -/
def tsKeyLE (a b : Option ℤ) : Bool :=
  match a, b with
  | none, none => true
  | none, some _ => false
  | some _, none => true
  | some x, some y => decide (x ≤ y)

/-- Sort relation on rows by timestamp. -/
def tsLE (p q : SplitRow) : Prop :=
  tsKeyLE p.record.timestamp_ms q.record.timestamp_ms = true

instance : DecidableRel tsLE := fun p q =>
  inferInstanceAs (Decidable (_ = true))

/-- New-session test of `detect_temporal_clusters`:
`timestamp_diff.isna() | (timestamp_diff > gap_ms)` — the difference is `NaN`
on the first row and whenever either timestamp is missing. -/
def newSession (prev cur : Option ℤ) (gap : ℤ) : Bool :=
  match prev, cur with
  | some a, some b => decide (b - a > gap)
  | _, _ => true

/-- Cumulative-sum walk assigning `session_cluster_id` (ids start at 1). -/
def clusterWalk (gap : ℤ) : Option ℤ → Nat → List SplitRow → List (SplitRow × Nat)
  | _, _, [] => []
  | prev, cid, r :: rest =>
    let cid' := if newSession prev r.record.timestamp_ms gap then cid + 1 else cid
    (r, cid') :: clusterWalk gap r.record.timestamp_ms cid' rest

/-- Timestamp-sorted rows with their `session_cluster_id`.  The source then
restores the original frame order (`sort_index`); the pairing of rows with
cluster ids — the only thing the counts below read — is unchanged by that. -/
def sessionClusters (rows : List SplitRow) (gap : ℤ) : List (SplitRow × Nat) :=
  clusterWalk gap none 0 (List.insertionSort tsLE rows)

/-- Fraction of rows with a timestamp (`non_null_count / len(df)`), with the
`len(df) > 0` guard of `temporal_leakage_report`. -/
def timestampCoverage (rows : List SplitRow) : ℚ :=
  if rows.length > 0 then
    (rows.countP (fun r => r.record.timestamp_ms.isSome) : ℚ) / rows.length
  else 0

/-- The clustering entry point `detect_temporal_clusters`: `None` below the
50% timestamp-coverage threshold, otherwise the clustered rows.  (The source
computes the coverage without the emptiness guard, but is only ever called
after `temporal_leakage_report` has established coverage of at least 50%,
which forces a nonempty frame.) -/
def detect_temporal_clusters (rows : List SplitRow) (gap : ℤ) :
    Option (List (SplitRow × Nat)) :=
  if timestampCoverage rows < 1/2 then none
  else some (sessionClusters rows gap)

/-- Distinct `session_cluster_id` values (`unique`/`nunique`; `List.dedup`
keeps a different representative order, which no count below depends on). -/
def clusterIds (cl : List (SplitRow × Nat)) : List Nat :=
  (cl.map (fun p => p.2)).dedup

/-- The crossing counter `find_clusters_crossing_splits`: clusters whose
member rows include both a train-assigned and a test-assigned row. -/
def find_clusters_crossing_splits (cl : List (SplitRow × Nat)) : Nat :=
  (clusterIds cl).countP (fun c =>
    ((cl.filter (fun p => p.2 == c)).any (fun p => p.1.split == some SplitLabel.train)) &&
    ((cl.filter (fun p => p.2 == c)).any (fun p => p.1.split == some SplitLabel.test)))

/-- Specification-side crossing count: the number of distinct session
clusters containing at least one train-assigned and at least one
test-assigned row. -/
def crossingSpecCount (cl : List (SplitRow × Nat)) : Nat :=
  ((cl.map (fun p => p.2)).dedup).countP (fun c =>
    decide ((∃ p ∈ cl, p.2 = c ∧ p.1.split = some SplitLabel.train) ∧
      (∃ p ∈ cl, p.2 = c ∧ p.1.split = some SplitLabel.test)))

/-- The report dict of `temporal_leakage_report`.  The source rounds
`timestamp_coverage_pct` to two decimals for display; the exact rational is
kept here. -/
structure TemporalReport where
  temporal_check_status : String
  temporal_clusters_crossing_splits : Option Nat
  total_clusters : Option Nat
  timestamp_coverage_pct : ℚ
  deriving DecidableEq, Repr

/-- The reporting entry point `temporal_leakage_report` (`temporal.py`). -/
def temporal_leakage_report (rows : List SplitRow) : TemporalReport :=
  let pct := timestampCoverage rows * 100
  if timestampCoverage rows < 1/2 then
    ⟨"skipped_insufficient_timestamps", none, none, pct⟩
  else
    match detect_temporal_clusters rows DEFAULT_SESSION_GAP_MS with
    | none => ⟨"skipped_insufficient_timestamps", none, none, pct⟩
    | some cl =>
      ⟨"completed", some (find_clusters_crossing_splits cl),
        some (clusterIds cl).length, pct⟩

/-! ### Validation (`validation.py`) -/

/-- Minimum threshold constant from `validation.py`. -/
def MIN_TRAIN_SAMPLES : Nat := 100

/-- Minimum threshold constant from `validation.py` (10 minutes). -/
def MIN_TRAIN_DURATION_SEC : ℚ := 600

/-- Minimum threshold constant from `validation.py`. -/
def MIN_VAL_TEST_SAMPLES : Nat := 20

/-- Minimum threshold constant from `validation.py` (2 minutes). -/
def MIN_VAL_TEST_DURATION_SEC : ℚ := 120

/-- Result dataclass of `validation.py`. -/
structure ValidationResult where
  passed : Bool
  sample_validation_passed : Bool
  duration_validation_passed : Bool
  warnings : List String
  errors : List String
  deriving DecidableEq, Repr

/-- Samples per split (`df["split"].value_counts()` lookup with default 0). -/
def splitCount (rows : List SplitRow) (lbl : SplitLabel) : Nat :=
  rows.countP (fun r => r.split == some lbl)

/-- Total duration per split (`df.groupby("split")["duration_sec"].sum()`,
which skips `NaN` durations, hence the `getD 0`). -/
def splitDuration (rows : List SplitRow) (lbl : SplitLabel) : ℚ :=
  ((rows.filter (fun r => r.split == some lbl)).map
    (fun r => r.record.duration_sec.getD 0)).sum

/-- One-decimal rendering of a rational, modelling `f"{x:.1f}"` on the
nonnegative values that reach it (rounding is half-up on the exact rational;
the binary-float tie behaviour of Python is not modelled). -/
def fmt1 (x : ℚ) : String :=
  let t : ℤ := round (x * 10)
  toString (t / 10) ++ "." ++ toString (t % 10).natAbs

/-- The sample-count error messages of `validate_split_sizes`, in order. -/
def sampleErrors (rows : List SplitRow) : List String :=
  (if splitCount rows SplitLabel.train < MIN_TRAIN_SAMPLES then
    ["Train split has " ++ toString (splitCount rows SplitLabel.train) ++
      " samples, minimum is 100"] else []) ++
  (if splitCount rows SplitLabel.val < MIN_VAL_TEST_SAMPLES then
    ["Val split has " ++ toString (splitCount rows SplitLabel.val) ++
      " samples, minimum is 20"] else []) ++
  (if splitCount rows SplitLabel.test < MIN_VAL_TEST_SAMPLES then
    ["Test split has " ++ toString (splitCount rows SplitLabel.test) ++
      " samples, minimum is 20"] else [])

/-- The duration error messages of `validate_split_sizes`, in order. -/
def durationErrors (rows : List SplitRow) : List String :=
  (if splitDuration rows SplitLabel.train < MIN_TRAIN_DURATION_SEC then
    ["Train split has " ++ fmt1 (splitDuration rows SplitLabel.train / 60) ++
      " min, minimum is 10 min"] else []) ++
  (if splitDuration rows SplitLabel.val < MIN_VAL_TEST_DURATION_SEC then
    ["Val split has " ++ fmt1 (splitDuration rows SplitLabel.val / 60) ++
      " min, minimum is 2 min"] else []) ++
  (if splitDuration rows SplitLabel.test < MIN_VAL_TEST_DURATION_SEC then
    ["Test split has " ++ fmt1 (splitDuration rows SplitLabel.test / 60) ++
      " min, minimum is 2 min"] else [])

/-- The validator `validate_split_sizes` (`validation.py`): size/duration
violations become errors (and fail the result) by default, or are downgraded
to warnings under `allow_small_splits`. -/
def validate_split_sizes (rows : List SplitRow) (allow_small_splits : Bool) :
    ValidationResult :=
  let se := sampleErrors rows
  let de := durationErrors rows
  let issues := se ++ de
  { passed := if allow_small_splits then true else issues.isEmpty
    sample_validation_passed := se.isEmpty
    duration_validation_passed := de.isEmpty
    warnings := if allow_small_splits then issues else []
    errors := if allow_small_splits then [] else issues }

/-- Phase 6 of `run_versioning` (`cli.py`): distribution-balance warnings are
appended to the validation result's warning list and nothing else changes
(`validation_result.warnings.extend(distribution_warnings)`). -/
def apply_distribution_warnings (v : ValidationResult) (dw : List String) :
    ValidationResult :=
  if dw.isEmpty then v else { v with warnings := v.warnings ++ dw }

/-! ### Distribution balance (`check_distribution_balance`) -/

/-- A single-quote character, used inside the warning strings. -/
def quoteChar : String := String.singleton (Char.ofNat 39)

/-- Non-null duration bins of one split, in row order
(the population of `value_counts`, which drops `NaN`). -/
def splitBins (rows : List SplitRow) (lbl : SplitLabel) : List String :=
  (rows.filter (fun r => r.split == some lbl)).filterMap (fun r => r.duration_bin)

/-- Proportion of one bin inside a split
(`value_counts(normalize=True)` over the non-null bins, with 0 for an
absent key as in `split_bin_props.get(bin_label, 0)`). -/
def binProp (bins : List String) (b : String) : ℚ :=
  (bins.count b : ℚ) / bins.length

/-- The deviation warning string of `check_distribution_balance`. -/
def mkDeviationWarning (b : String) (d tp sp : ℚ) (name : String) : String :=
  "Duration bin " ++ quoteChar ++ b ++ quoteChar ++ " differs by " ++ fmt1 d ++
    "% between train (" ++ fmt1 (tp * 100) ++ "%) and " ++ name ++ " (" ++
    fmt1 (sp * 100) ++ "%)"

/-- The absent-from-train warning string of `check_distribution_balance`. -/
def mkAbsentBinWarning (b : String) (name : String) (sp : ℚ) : String :=
  "Duration bin " ++ quoteChar ++ b ++ quoteChar ++ " exists in " ++ name ++
    " (" ++ fmt1 (sp * 100) ++ "%) but not in train (0.0%)"

/-- The loop body of `check_distribution_balance` for one of the `val`/`test`
splits.  The `duration_bin` column reaching this function is categorical —
`assign_duration_bins` builds it with `pd.cut(..., labels=...)` — and pandas
`value_counts` on a categorical Series lists every category of the dtype,
zero-count categories included.  `cats` is that category list (the bin
labels, in edge order), so the keys of both proportion dicts are exactly
`cats`; the second loop's membership test `bin_label not in train_bin_props`
is therefore never true and the absent-from-train branch is dead code.  (The
source iterates dict keys in `value_counts` order, frequency-descending;
iterating `cats` in category order only permutes the warning list and no
claim depends on the order.) -/
def checkSplitAgainstTrain (rows : List SplitRow) (cats : List String) (threshold : ℚ)
    (lbl : SplitLabel) (name capName : String) : List String :=
  if (rows.filter (fun r => r.split == some lbl)).length = 0 then
    [capName ++ " split is empty"]
  else
    cats.filterMap (fun b =>
      if 0 < binProp (splitBins rows SplitLabel.train) b ∧
          |binProp (splitBins rows lbl) b - binProp (splitBins rows SplitLabel.train) b| /
            binProp (splitBins rows SplitLabel.train) b * 100 > threshold then
        some (mkDeviationWarning b
          (|binProp (splitBins rows lbl) b - binProp (splitBins rows SplitLabel.train) b| /
            binProp (splitBins rows SplitLabel.train) b * 100)
          (binProp (splitBins rows SplitLabel.train) b) (binProp (splitBins rows lbl) b) name)
      else none) ++
    cats.filterMap (fun b =>
      if ¬ cats.contains b ∧ 0 < binProp (splitBins rows lbl) b then
        some (mkAbsentBinWarning b name (binProp (splitBins rows lbl) b))
      else none)

/-- The balance checker `check_distribution_balance` (`validation.py`),
receiving the category list of the categorical `duration_bin` column
alongside the rows.  The `duration_bin`-column-missing guard of the source
cannot arise in the typed embedding (the column always exists on
`SplitRow`). -/
def check_distribution_balance (rows : List SplitRow) (cats : List String)
    (threshold : ℚ) : List String :=
  if (rows.filter (fun r => r.split == some SplitLabel.train)).length = 0 then
    ["Train split is empty, cannot check distribution balance"]
  else
    checkSplitAgainstTrain rows cats threshold SplitLabel.val "val" "Val" ++
    checkSplitAgainstTrain rows cats threshold SplitLabel.test "test" "Test"

/-! ### Excluded-list CSV (`reporting.py`) -/

/-- Column order of `generate_excluded_csv`. -/
def csvColumnOrder : List String :=
  ["file_name", "manifest_row_index", "excluded_reason", "audio_sha256",
    "transcript_sha256"]

/-- Columns of the pandas frame built from the excluded-record dicts:
`pd.DataFrame(excluded_records)` has the five dict keys as columns when the
list is nonempty, and no columns at all for the empty list
(`pd.DataFrame([])` has an empty column index). -/
def excludedFrameColumns (excluded : List ExcludedRecord) : List String :=
  if excluded.isEmpty then [] else csvColumnOrder

/-- Cell rendering of one excluded row (pandas writes an empty cell for a
missing hash). -/
def excludedFieldText (e : ExcludedRecord) (c : String) : String :=
  if c == "file_name" then e.file_name
  else if c == "manifest_row_index" then toString e.manifest_row_index
  else if c == "excluded_reason" then e.excluded_reason
  else if c == "audio_sha256" then e.audio_sha256.getD ""
  else e.transcript_sha256

/-- The excluded-list writer `generate_excluded_csv` (`reporting.py`) as the
list of CSV lines it writes: the header line made of
`columns_to_write = [c for c in columns if c in excluded_df.columns]`,
then one line per excluded row.  (Both source branches produce exactly this:
for a nonempty frame `to_csv` writes header plus rows, for the empty frame it
writes the header of an empty column selection.) -/
def generate_excluded_csv (excluded : List ExcludedRecord) : List String :=
  let cols := csvColumnOrder.filter (fun c => (excludedFrameColumns excluded).contains c)
  String.intercalate "," cols ::
    excluded.map (fun e => String.intercalate "," (cols.map (excludedFieldText e)))

/-- Audit identity of a record: the fields the excluded list retains. -/
def auditKey (r : Record) : String × Nat × Option String × String :=
  (r.file_name, r.manifest_row_index, r.audio_sha256, r.transcript_sha256)

/-- Audit identity of an excluded-list entry. -/
def excludedKey (e : ExcludedRecord) : String × Nat × Option String × String :=
  (e.file_name, e.manifest_row_index, e.audio_sha256, e.transcript_sha256)

/-- A fully valid record: readable audio, positive duration, non-blank
transcript, all hashes present.  Cleaning excludes nothing from it. -/
def cleanRecordExample : Record :=
  ⟨0, "a.wav", true, some 5, false, some "aa", "tt", some "pp", none⟩

/-- A record whose audio hash (hence pair hash) is missing while the
inventory's audio-readable flag is still true — the hash failure and the
flag are independent in the pipeline. -/
def missingPairRecord : Record :=
  ⟨0, "a.wav", true, some 5, false, none, "tt", none, none⟩

/-- An unreadable-audio record used to instantiate the amended C8 theorem. -/
def unreadableRecord : Record :=
  ⟨0, "b.wav", false, some 5, false, none, "tt", none, none⟩

/-- Executable prefix test on character lists. -/
def charsStartWith : List Char → List Char → Bool
  | _, [] => true
  | [], _ :: _ => false
  | a :: as, b :: bs => a == b && charsStartWith as bs

/-- Executable substring test on character lists. -/
def charsContain : List Char → List Char → Bool
  | [], needle => needle.isEmpty
  | a :: as, needle => charsStartWith (a :: as) needle || charsContain as needle

/-- Executable substring test on strings. -/
def mentionsSub (w marker : String) : Bool :=
  charsContain w.toList marker.toList

/-- Category list of the categorical `duration_bin` column for the failing
input below: the two bin labels generated by `assign_duration_bins`. -/
def absentBinCats : List String := ["(0, 1]", "(1, 3]"]

/-- Failing input for the absent-bin warning claim: the train split is
nonempty and lives in the first bin; the val split holds four rows of the
first bin (keeping its proportion within the 20% deviation threshold) and
one row of the second bin, which therefore has a val member and zero train
members. -/
def absentBinRows : List SplitRow :=
  [⟨⟨0, "t.wav", true, some 1, false, some "aa", "tt", some "p0", none⟩,
      some "(0, 1]", some SplitLabel.train⟩,
    ⟨⟨1, "v1.wav", true, some 1, false, some "b1", "u1", some "p1", none⟩,
      some "(0, 1]", some SplitLabel.val⟩,
    ⟨⟨2, "v2.wav", true, some 1, false, some "b2", "u2", some "p2", none⟩,
      some "(0, 1]", some SplitLabel.val⟩,
    ⟨⟨3, "v3.wav", true, some 1, false, some "b3", "u3", some "p3", none⟩,
      some "(0, 1]", some SplitLabel.val⟩,
    ⟨⟨4, "v4.wav", true, some 1, false, some "b4", "u4", some "p4", none⟩,
      some "(0, 1]", some SplitLabel.val⟩,
    ⟨⟨5, "v5.wav", true, some 2, false, some "b5", "u5", some "p5", none⟩,
      some "(1, 3]", some SplitLabel.val⟩]

/-- A valid record sharing its pair hash with the duplicate-and-invalid
record below. -/
def dupDurRecordA : Record :=
  ⟨0, "a.wav", true, some 5, false, some "aa", "t", some "x", none⟩

/-- A record with both an invalid (missing) duration and a duplicated pair
hash, used to instantiate the rule-order theorem. -/
def dupDurRecordB : Record :=
  ⟨1, "b.wav", true, none, false, some "aa", "t", some "x", none⟩

/-- Two otherwise-valid records whose pair hashes are both missing. -/
def nonePairRecordA : Record :=
  ⟨0, "a.wav", true, some 5, false, none, "t", none, none⟩

/-- Second missing-pair record, with higher row index. -/
def nonePairRecordB : Record :=
  ⟨1, "b.wav", true, some 6, false, none, "u", none, none⟩

/-- Five bin members with distinct pair hashes used to instantiate the
floor-count theorem (ratios 3/5, 1/5, 1/5 give counts 3, 1, 1). -/
def fiveBinRows : List Binned :=
  [⟨⟨0, "f0", true, some 1, false, some "cA", "T", some "c", none⟩, some "B"⟩,
    ⟨⟨1, "f1", true, some 1, false, some "aA", "T", some "a", none⟩, some "B"⟩,
    ⟨⟨2, "f2", true, some 1, false, some "eA", "T", some "e", none⟩, some "B"⟩,
    ⟨⟨3, "f3", true, some 1, false, some "bA", "T", some "b", none⟩, some "B"⟩,
    ⟨⟨4, "f4", true, some 1, false, some "dA", "T", some "d", none⟩, some "B"⟩]

/-! ### Helper lemmas -/

/-- A member of a list appears in its enumeration at some frame index. -/
theorem mem_enum_of_mem {α : Type} {a : α} {l : List α} (h : a ∈ l) :
    ∃ i, (i, a) ∈ l.enum := by
  obtain ⟨⟨i, hi⟩, rfl⟩ := List.get_of_mem h
  refine ⟨i, ?_⟩
  have hlen : i < l.enum.length := by simpa [List.enum_length] using hi
  have : l.enum[i] = (i, l[i]) := List.getElem_enum ..
  simpa [List.get_eq_getElem, this] using List.getElem_mem hlen

/-- The rule-1-to-3 survivors are a sublist of the enumerated frame. -/
theorem survivors3_sublist (df : List Record) : List.Sublist (survivors3 df) df.enum :=
  ((List.filter_sublist _).trans (List.filter_sublist _)).trans (List.filter_sublist _)

/-- Membership characterization of the rule-1-to-3 survivors. -/
theorem mem_survivors3 {df : List Record} {p : Nat × Record} :
    p ∈ survivors3 df ↔
      p ∈ df.enum ∧ rule1Mask p.2 = false ∧ rule2Mask p.2 = false ∧ rule3Mask p.2 = false := by
  simp only [survivors3, survivors2, survivors1, List.mem_filter, Bool.not_eq_true',
    Bool.not_eq_eq_eq_not, Bool.not_true]
  tauto

/-- A singleton-or-empty `ite` is empty exactly when its condition fails. -/
theorem ite_singleton_eq_nil {c : Prop} [Decidable c] {s : String} :
    (if c then [s] else []) = ([] : List String) ↔ ¬c := by
  split <;> simp_all

/-- The duplicate-marking walk returns the input rows in order. -/
theorem dupMarks_map_fst (seen : List (Option String)) (l : List (Nat × Record)) :
    (dupMarks seen l).map (fun x => x.1) = l := by
  induction l generalizing seen with
  | nil => rfl
  | cons p rest ih => simp [dupMarks, ih]

/-- The rule-4 exclusions form a sublist of the sorted survivors. -/
theorem dupExcluded_sublist (df : List Record) :
    List.Sublist (dupExcluded df) (sortedSurvivors df) := by
  have h1 : List.Sublist
      ((dupMarks [] (sortedSurvivors df)).filter (fun x => x.2 == true))
      (dupMarks [] (sortedSurvivors df)) := List.filter_sublist _
  have h2 := h1.map (fun x => x.1)
  rwa [dupMarks_map_fst] at h2

/-- Sorting the survivors permutes them. -/
theorem sortedSurvivors_perm (df : List Record) :
    List.Perm (sortedSurvivors df) (survivors3 df) :=
  List.perm_insertionSort _ _

/-- Frame indices of the rule-1-to-3 survivors are distinct. -/
theorem survivors3_fst_nodup (df : List Record) :
    ((survivors3 df).map Prod.fst).Nodup := by
  have h := (survivors3_sublist df).map Prod.fst
  rw [List.enum_map_fst] at h
  exact (List.nodup_range _).sublist h

/-- Frame indices of the sorted survivors are distinct. -/
theorem sortedSurvivors_fst_nodup (df : List Record) :
    ((sortedSurvivors df).map Prod.fst).Nodup :=
  ((sortedSurvivors_perm df).map Prod.fst).symm.nodup (survivors3_fst_nodup df)

/-- The rule-4 exclusions are a subpermutation of the survivors. -/
theorem dupExcluded_subperm (df : List Record) :
    (dupExcluded df).Subperm (survivors3 df) :=
  (dupExcluded_sublist df).subperm.trans (sortedSurvivors_perm df).subperm

/-- Every rule-4 exclusion is a rule-1-to-3 survivor. -/
theorem dupExcluded_subset_survivors3 {df : List Record} {p : Nat × Record}
    (h : p ∈ dupExcluded df) : p ∈ survivors3 df :=
  (dupExcluded_subperm df).subset h

/-- In a list with distinct first components, filtering to the indices of a
subpermutation recovers exactly that subpermutation (this is how clearing
`remaining_mask` at the duplicate frame indices relates to the duplicate
rows themselves). -/
theorem filter_by_fst_perm {α : Type} [DecidableEq α] {l d : List (Nat × α)}
    (hn : (l.map Prod.fst).Nodup) (hd : d.Subperm l) :
    List.Perm (l.filter (fun p => (d.map (fun q => q.1)).contains p.1)) d := by
  have hld : l.Nodup := hn.of_map
  have hdd : d.Nodup := by
    obtain ⟨w, hw, hs⟩ := hd
    exact hw.nodup (hs.nodup hld)
  apply List.perm_of_nodup_nodup_toFinset_eq (hld.filter _) hdd
  ext x
  simp only [List.mem_toFinset, List.mem_filter]
  constructor
  · rintro ⟨hxl, hc⟩
    have hx1 : x.1 ∈ d.map (fun q => q.1) := by simpa using hc
    obtain ⟨y, hy, hyx⟩ := List.mem_map.1 hx1
    have hyl : y ∈ l := hd.subset hy
    have hxy : y = x := List.inj_on_of_nodup_map hn hyl hxl hyx
    exact hxy ▸ hy
  · intro hxd
    refine ⟨hd.subset hxd, ?_⟩
    simpa using List.mem_map_of_mem (fun q : Nat × α => q.1) hxd

/-- Append rearrangement used to assemble the partition permutation. -/
theorem perm_rearrange {α : Type} (a b c i d : List α) :
    List.Perm (a ++ (b ++ (c ++ (i ++ d)))) (i ++ (a ++ b ++ c ++ d)) := by
  rw [← Multiset.coe_eq_coe]
  simp only [← Multiset.coe_add]
  abel

/-- The enumerated frame splits, as a multiset, into the four exclusion
batches and the included rows. -/
theorem enum_perm_cleaning_parts (df : List Record) :
    List.Perm df.enum
      (includedPairs df ++
        (rule1Excluded df ++ rule2Excluded df ++ rule3Excluded df ++ dupExcluded df)) := by
  have h1 : List.Perm df.enum (rule1Excluded df ++ survivors1 df) := by
    unfold rule1Excluded survivors1
    exact (List.filter_append_perm _ _).symm
  have h2 : List.Perm (survivors1 df) (rule2Excluded df ++ survivors2 df) := by
    unfold rule2Excluded survivors2
    exact (List.filter_append_perm _ _).symm
  have h3 : List.Perm (survivors2 df) (rule3Excluded df ++ survivors3 df) := by
    unfold rule3Excluded survivors3
    exact (List.filter_append_perm _ _).symm
  have hcong : (survivors3 df).filter
      (fun a => !!(((dupExcluded df).map (fun q => q.1)).contains a.1)) =
      (survivors3 df).filter (fun p => ((dupExcluded df).map (fun q => q.1)).contains p.1) :=
    List.filter_congr (fun a _ => by rw [Bool.not_not])
  have h4 : List.Perm (survivors3 df)
      (includedPairs df ++
        (survivors3 df).filter (fun p => ((dupExcluded df).map (fun q => q.1)).contains p.1)) := by
    have := (List.filter_append_perm
      (fun p => !(((dupExcluded df).map (fun q => q.1)).contains p.1)) (survivors3 df)).symm
    rwa [hcong] at this
  have h5 : List.Perm
      ((survivors3 df).filter (fun p => ((dupExcluded df).map (fun q => q.1)).contains p.1))
      (dupExcluded df) :=
    filter_by_fst_perm (survivors3_fst_nodup df) (dupExcluded_subperm df)
  have big : List.Perm df.enum
      (rule1Excluded df ++ (rule2Excluded df ++ (rule3Excluded df ++
        (includedPairs df ++ dupExcluded df)))) :=
    h1.trans ((h2.trans ((h3.trans ((h4.trans
      (h5.append_left (includedPairs df))).append_left
        (rule3Excluded df))).append_left (rule2Excluded df))).append_left (rule1Excluded df))
  exact big.trans (perm_rearrange _ _ _ _ _)

/-! ### C2: cleaning partitions the input -/

/-- C2: cleaning partitions the input — the audit identities of the input
records are, as a multiset, exactly the included records plus the excluded
audit entries (so every input record lands in exactly one of the two sets,
counted with multiplicity), the two output sizes sum to the input size, and
every excluded entry carries exactly one reason, drawn from the fixed
four-reason enumeration. -/
theorem cleaning_partitions_input (df : List Record) :
    List.Perm (df.map auditKey)
      ((apply_cleaning_rules df).1.map auditKey ++
        (apply_cleaning_rules df).2.map excludedKey) ∧
    (apply_cleaning_rules df).1.length + (apply_cleaning_rules df).2.length = df.length ∧
    ∀ e ∈ (apply_cleaning_rules df).2,
      e.excluded_reason = REASON_AUDIO_UNREADABLE ∨
      e.excluded_reason = REASON_DURATION_INVALID ∨
      e.excluded_reason = REASON_TRANSCRIPT_BLANK ∨
      e.excluded_reason = REASON_DUPLICATE_PAIR := by
  have hperm : List.Perm (df.map auditKey)
      ((apply_cleaning_rules df).1.map auditKey ++
        (apply_cleaning_rules df).2.map excludedKey) := by
    have base := (enum_perm_cleaning_parts df).map (fun p => auditKey p.2)
    have hl : df.enum.map (fun p => auditKey p.2) = df.map auditKey := by
      rw [show (fun p : Nat × Record => auditKey p.2) = (auditKey ∘ Prod.snd) from rfl,
        ← List.map_map, List.enum_map_snd]
    rw [hl] at base
    refine base.trans (List.Perm.of_eq ?_)
    simp only [apply_cleaning_rules, List.map_append, List.map_map]
    rfl
  refine ⟨hperm, ?_, ?_⟩
  · have hlen := hperm.length_eq
    simp only [List.length_append, List.length_map] at hlen
    omega
  · intro e he
    simp only [apply_cleaning_rules, List.mem_append, List.mem_map] at he
    rcases he with ((⟨q, _, rfl⟩ | ⟨q, _, rfl⟩) | ⟨q, _, rfl⟩) | ⟨q, _, rfl⟩
    · exact Or.inl rfl
    · exact Or.inr (Or.inl rfl)
    · exact Or.inr (Or.inr (Or.inl rfl))
    · exact Or.inr (Or.inr (Or.inr rfl))

/-- Membership characterization of the rule-1 batch. -/
theorem mem_rule1Excluded {df : List Record} {p : Nat × Record} :
    p ∈ rule1Excluded df ↔ p ∈ df.enum ∧ rule1Mask p.2 = true := by
  simp [rule1Excluded, List.mem_filter]

/-- Membership characterization of the rule-2 batch. -/
theorem mem_rule2Excluded {df : List Record} {p : Nat × Record} :
    p ∈ rule2Excluded df ↔
      p ∈ df.enum ∧ rule1Mask p.2 = false ∧ rule2Mask p.2 = true := by
  simp only [rule2Excluded, survivors1, List.mem_filter, Bool.not_eq_true']
  tauto

/-- Membership characterization of the rule-3 batch. -/
theorem mem_rule3Excluded {df : List Record} {p : Nat × Record} :
    p ∈ rule3Excluded df ↔
      p ∈ df.enum ∧ rule1Mask p.2 = false ∧ rule2Mask p.2 = false ∧
        rule3Mask p.2 = true := by
  simp only [rule3Excluded, survivors2, survivors1, List.mem_filter, Bool.not_eq_true']
  tauto

/-- With distinct `manifest_row_index` values, two enumerated rows with the
same index value coincide. -/
theorem enum_mri_inj (df : List Record)
    (hmri : (df.map (fun r => r.manifest_row_index)).Nodup)
    {p q : Nat × Record} (hp : p ∈ df.enum) (hq : q ∈ df.enum)
    (h : p.2.manifest_row_index = q.2.manifest_row_index) : p = q := by
  have heq : df.enum.map (fun p => p.2.manifest_row_index) =
      df.map (fun r => r.manifest_row_index) := by
    rw [show (fun p : Nat × Record => p.2.manifest_row_index) =
      ((fun r : Record => r.manifest_row_index) ∘ Prod.snd) from rfl, ← List.map_map,
      List.enum_map_snd]
  exact List.inj_on_of_nodup_map (heq ▸ hmri) hp hq h

/-- Every entry of the excluded list arises from an enumerated row whose rule
masks match the entry's recorded reason, determined by the first matching
rule. -/
theorem excluded_entry_forms (df : List Record) (e : ExcludedRecord)
    (he : e ∈ (apply_cleaning_rules df).2) :
    ∃ q ∈ df.enum, q.2.manifest_row_index = e.manifest_row_index ∧
      ((e.excluded_reason = REASON_AUDIO_UNREADABLE ∧ rule1Mask q.2 = true) ∨
       (e.excluded_reason = REASON_DURATION_INVALID ∧ rule1Mask q.2 = false ∧
         rule2Mask q.2 = true) ∨
       (e.excluded_reason = REASON_TRANSCRIPT_BLANK ∧ rule1Mask q.2 = false ∧
         rule2Mask q.2 = false ∧ rule3Mask q.2 = true) ∨
       (e.excluded_reason = REASON_DUPLICATE_PAIR ∧ rule1Mask q.2 = false ∧
         rule2Mask q.2 = false ∧ rule3Mask q.2 = false)) := by
  simp only [apply_cleaning_rules, List.mem_append, List.mem_map] at he
  rcases he with ((⟨q, hq, rfl⟩ | ⟨q, hq, rfl⟩) | ⟨q, hq, rfl⟩) | ⟨q, hq, rfl⟩
  · obtain ⟨henum, hm⟩ := mem_rule1Excluded.1 hq
    exact ⟨q, henum, rfl, Or.inl ⟨rfl, hm⟩⟩
  · obtain ⟨henum, hm1, hm2⟩ := mem_rule2Excluded.1 hq
    exact ⟨q, henum, rfl, Or.inr (Or.inl ⟨rfl, hm1, hm2⟩)⟩
  · obtain ⟨henum, hm1, hm2, hm3⟩ := mem_rule3Excluded.1 hq
    exact ⟨q, henum, rfl, Or.inr (Or.inr (Or.inl ⟨rfl, hm1, hm2, hm3⟩))⟩
  · have hs := dupExcluded_subset_survivors3 hq
    obtain ⟨henum, hm1, hm2, hm3⟩ := mem_survivors3.1 hs
    exact ⟨q, henum, rfl, Or.inr (Or.inr (Or.inr ⟨rfl, hm1, hm2, hm3⟩))⟩

/-- Under distinct `manifest_row_index` values, the recorded reason of an
excluded entry matching a record is tied to that record's own rule masks. -/
theorem excluded_entry_reason (df : List Record)
    (hmri : (df.map (fun r => r.manifest_row_index)).Nodup)
    {r : Record} {i : Nat} (hi : (i, r) ∈ df.enum)
    {e : ExcludedRecord} (he : e ∈ (apply_cleaning_rules df).2)
    (hmr : e.manifest_row_index = r.manifest_row_index) :
    (e.excluded_reason = REASON_AUDIO_UNREADABLE ∧ rule1Mask r = true) ∨
    (e.excluded_reason = REASON_DURATION_INVALID ∧ rule1Mask r = false ∧
      rule2Mask r = true) ∨
    (e.excluded_reason = REASON_TRANSCRIPT_BLANK ∧ rule1Mask r = false ∧
      rule2Mask r = false ∧ rule3Mask r = true) ∨
    (e.excluded_reason = REASON_DUPLICATE_PAIR ∧ rule1Mask r = false ∧
      rule2Mask r = false ∧ rule3Mask r = false) := by
  obtain ⟨q, henum, hqm, hcases⟩ := excluded_entry_forms df e he
  have hq_eq : q = (i, r) := enum_mri_inj df hmri henum hi (by rw [hqm, hmr])
  rw [hq_eq] at hcases
  exact hcases

/-- The rule-1 batch lands in the excluded list. -/
theorem excl_mem_rule1 {df : List Record} {p : Nat × Record}
    (h : p ∈ rule1Excluded df) :
    mkExcluded REASON_AUDIO_UNREADABLE p.2 ∈ (apply_cleaning_rules df).2 := by
  simp only [apply_cleaning_rules]
  exact List.mem_append_left _ (List.mem_append_left _
    (List.mem_append_left _ (List.mem_map_of_mem _ h)))

/-- The rule-2 batch lands in the excluded list. -/
theorem excl_mem_rule2 {df : List Record} {p : Nat × Record}
    (h : p ∈ rule2Excluded df) :
    mkExcluded REASON_DURATION_INVALID p.2 ∈ (apply_cleaning_rules df).2 := by
  simp only [apply_cleaning_rules]
  exact List.mem_append_left _ (List.mem_append_left _
    (List.mem_append_right _ (List.mem_map_of_mem _ h)))

/-- The rule-3 batch lands in the excluded list. -/
theorem excl_mem_rule3 {df : List Record} {p : Nat × Record}
    (h : p ∈ rule3Excluded df) :
    mkExcluded REASON_TRANSCRIPT_BLANK p.2 ∈ (apply_cleaning_rules df).2 := by
  simp only [apply_cleaning_rules]
  exact List.mem_append_left _
    (List.mem_append_right _ (List.mem_map_of_mem _ h))

/-! ### C3: cleaning rule order is load-bearing -/

/-- C3: the recorded reason follows the fixed rule order — a rule-1 match is
always reported `audio_unreadable`; a record failing rule 2 but not rule 1 is
always reported `duration_invalid` (in particular never as a duplicate, even
if its pair hash repeats); a record failing only rule 3 among 1-3 is always
reported `transcript_blank`; and a `duplicate_audio_transcript` entry can
only come from a record that passed rules 1-3. -/
theorem cleaning_rule_order_precedence (df : List Record)
    (hmri : (df.map (fun r => r.manifest_row_index)).Nodup)
    (r : Record) (hr : r ∈ df) :
    (rule1Mask r = true →
      mkExcluded REASON_AUDIO_UNREADABLE r ∈ (apply_cleaning_rules df).2 ∧
      ∀ e ∈ (apply_cleaning_rules df).2,
        e.manifest_row_index = r.manifest_row_index →
          e.excluded_reason = REASON_AUDIO_UNREADABLE) ∧
    (rule1Mask r = false → rule2Mask r = true →
      mkExcluded REASON_DURATION_INVALID r ∈ (apply_cleaning_rules df).2 ∧
      ∀ e ∈ (apply_cleaning_rules df).2,
        e.manifest_row_index = r.manifest_row_index →
          e.excluded_reason = REASON_DURATION_INVALID) ∧
    (rule1Mask r = false → rule2Mask r = false → rule3Mask r = true →
      mkExcluded REASON_TRANSCRIPT_BLANK r ∈ (apply_cleaning_rules df).2 ∧
      ∀ e ∈ (apply_cleaning_rules df).2,
        e.manifest_row_index = r.manifest_row_index →
          e.excluded_reason = REASON_TRANSCRIPT_BLANK) ∧
    (∀ e ∈ (apply_cleaning_rules df).2,
      e.excluded_reason = REASON_DUPLICATE_PAIR →
      ∃ s ∈ df, s.manifest_row_index = e.manifest_row_index ∧
        rule1Mask s = false ∧ rule2Mask s = false ∧ rule3Mask s = false) := by
  obtain ⟨i, hi⟩ := mem_enum_of_mem hr
  refine ⟨?_, ?_, ?_, ?_⟩
  · intro h1
    have hmem1 : ((i, r) : Nat × Record) ∈ rule1Excluded df := mem_rule1Excluded.2 ⟨hi, h1⟩
    refine ⟨excl_mem_rule1 hmem1, ?_⟩
    intro e he hmr
    rcases excluded_entry_reason df hmri hi he hmr with
      ⟨hre, _⟩ | ⟨_, hm1, _⟩ | ⟨_, hm1, _, _⟩ | ⟨_, hm1, _, _⟩ <;>
      first
        | exact hre
        | simp [h1] at hm1
  · intro h1 h2
    have hmem2 : ((i, r) : Nat × Record) ∈ rule2Excluded df :=
      mem_rule2Excluded.2 ⟨hi, h1, h2⟩
    refine ⟨excl_mem_rule2 hmem2, ?_⟩
    intro e he hmr
    rcases excluded_entry_reason df hmri hi he hmr with
      ⟨_, hm⟩ | ⟨hre, _, _⟩ | ⟨_, _, hm2, _⟩ | ⟨_, _, hm2, _⟩
    · simp [h1] at hm
    · exact hre
    · simp [h2] at hm2
    · simp [h2] at hm2
  · intro h1 h2 h3
    have hmem3 : ((i, r) : Nat × Record) ∈ rule3Excluded df :=
      mem_rule3Excluded.2 ⟨hi, h1, h2, h3⟩
    refine ⟨excl_mem_rule3 hmem3, ?_⟩
    intro e he hmr
    rcases excluded_entry_reason df hmri hi he hmr with
      ⟨_, hm⟩ | ⟨_, _, hm2⟩ | ⟨hre, _, _, _⟩ | ⟨_, _, _, hm3⟩
    · simp [h1] at hm
    · simp [h2] at hm2
    · exact hre
    · simp [h3] at hm3
  · intro e he hre
    obtain ⟨q, henum, hqm, hcases⟩ := excluded_entry_forms df e he
    have hsnd : q.2 ∈ df := by
      have hm := List.mem_map_of_mem Prod.snd henum
      rwa [List.enum_map_snd] at hm
    rcases hcases with ⟨hr1, _⟩ | ⟨hr1, _, _⟩ | ⟨hr1, _, _, _⟩ | ⟨_, hm1, hm2, hm3⟩
    · rw [hre] at hr1
      exact absurd hr1 (by decide)
    · rw [hre] at hr1
      exact absurd hr1 (by decide)
    · rw [hre] at hr1
      exact absurd hr1 (by decide)
    · exact ⟨q.2, hsnd, hqm, hm1, hm2, hm3⟩

/-- Witness for the rule-order theorem: the record with both an invalid
duration and a duplicate pair hash is reported `duration_invalid`. -/
theorem cleaning_rule_order_precedence_witness :
    (([dupDurRecordA, dupDurRecordB].map (fun r => r.manifest_row_index)).Nodup) ∧
    dupDurRecordB ∈ [dupDurRecordA, dupDurRecordB] ∧
    (rule1Mask dupDurRecordB = false → rule2Mask dupDurRecordB = true →
      mkExcluded REASON_DURATION_INVALID dupDurRecordB ∈
        (apply_cleaning_rules [dupDurRecordA, dupDurRecordB]).2 ∧
      ∀ e ∈ (apply_cleaning_rules [dupDurRecordA, dupDurRecordB]).2,
        e.manifest_row_index = dupDurRecordB.manifest_row_index →
          e.excluded_reason = REASON_DURATION_INVALID) :=
  ⟨by decide, by decide,
    (cleaning_rule_order_precedence [dupDurRecordA, dupDurRecordB] (by decide)
      dupDurRecordB (by decide)).2.1⟩

/-- A marked row comes from the walked list. -/
theorem dupMarks_mem_fst {seen : List (Option String)} {l : List (Nat × Record)}
    {p : Nat × Record} {b : Bool} (h : (p, b) ∈ dupMarks seen l) : p ∈ l := by
  have hm := List.mem_map_of_mem (fun x => x.1) h
  rwa [dupMarks_map_fst] at hm

/-- A row whose pair hash is already in the seen set gets marked. -/
theorem dupMarks_true_of_seen {l : List (Nat × Record)} :
    ∀ {seen : List (Option String)} {p : Nat × Record}, p ∈ l →
      p.2.pair_sha256 ∈ seen → (p, true) ∈ dupMarks seen l := by
  induction l with
  | nil => intro seen p h; simp at h
  | cons a t ih =>
    intro seen p hp hs
    have hc : seen.contains p.2.pair_sha256 = true := by simpa using hs
    rcases List.mem_cons.1 hp with rfl | hp'
    · simp only [dupMarks, List.mem_cons]
      exact Or.inl (by rw [hc])
    · simp only [dupMarks, List.mem_cons]
      exact Or.inr (ih hp' (List.mem_cons_of_mem _ hs))

/-- A row preceded (in walk order) by another row with the same pair hash
gets marked — this is `duplicated(keep=first)` flagging later occurrences. -/
theorem dupMarks_true_of_earlier {l : List (Nat × Record)} :
    ∀ {seen : List (Option String)} {t s : Nat × Record}, List.Sublist [t, s] l →
      t.2.pair_sha256 = s.2.pair_sha256 → (s, true) ∈ dupMarks seen l := by
  induction l with
  | nil => intro seen t s h; simp at h
  | cons a rest ih =>
    intro seen t s hsub heq
    cases hsub with
    | cons _ h =>
      simp only [dupMarks, List.mem_cons]
      exact Or.inr (ih h heq)
    | cons₂ _ h =>
      have hs : s ∈ rest := List.singleton_sublist.1 h
      simp only [dupMarks, List.mem_cons]
      exact Or.inr (dupMarks_true_of_seen hs (by rw [← heq]; exact List.mem_cons_self _ _))

/-- Conversely, a marked row either had its pair hash in the initial seen set
or is preceded in the walked list by a row with the same pair hash. -/
theorem dupMarks_true_cases {l : List (Nat × Record)} :
    ∀ {seen : List (Option String)} {p : Nat × Record}, (p, true) ∈ dupMarks seen l →
      p.2.pair_sha256 ∈ seen ∨
        ∃ t, List.Sublist [t, p] l ∧ t.2.pair_sha256 = p.2.pair_sha256 := by
  induction l with
  | nil => intro seen p h; simp [dupMarks] at h
  | cons a rest ih =>
    intro seen p h
    simp only [dupMarks, List.mem_cons] at h
    rcases h with heq | htail
    · have h1 : p = a := by
        have := congrArg Prod.fst heq
        simpa using this
      have h2 : seen.contains a.2.pair_sha256 = true := by
        have := congrArg Prod.snd heq
        simpa using this.symm
      subst h1
      exact Or.inl (by simpa using h2)
    · have hprest : p ∈ rest := dupMarks_mem_fst htail
      rcases ih htail with hseen | ⟨t, hsub, hpair⟩
      · rcases List.mem_cons.1 hseen with hpa | hseen'
        · exact Or.inr ⟨a, (List.singleton_sublist.2 hprest).cons₂ a, hpa.symm⟩
        · exact Or.inl hseen'
      · exact Or.inr ⟨t, hsub.cons a, hpair⟩

/-- Rule-4 membership in terms of the marking walk. -/
theorem mem_dupExcluded {df : List Record} {p : Nat × Record} :
    p ∈ dupExcluded df ↔ (p, true) ∈ dupMarks [] (sortedSurvivors df) := by
  unfold dupExcluded
  simp only [List.mem_map, List.mem_filter]
  constructor
  · rintro ⟨⟨q, b⟩, ⟨hx, hb⟩, rfl⟩
    have hbt : b = true := by simpa using hb
    subst hbt
    exact hx
  · intro h
    exact ⟨(p, true), ⟨h, rfl⟩, rfl⟩

/-- The rule-4 batch lands in the excluded list. -/
theorem excl_mem_dup {df : List Record} {p : Nat × Record}
    (h : p ∈ dupExcluded df) :
    mkExcluded REASON_DUPLICATE_PAIR p.2 ∈ (apply_cleaning_rules df).2 := by
  simp only [apply_cleaning_rules]
  exact List.mem_append_right _ (List.mem_map_of_mem _ h)

/-- Two positions of a list in order give a two-element sublist. -/
theorem sublist_pair_of_get {α : Type} (l : List α) :
    ∀ i j (hi : i < l.length) (hj : j < l.length), i < j →
      List.Sublist [l.get ⟨i, hi⟩, l.get ⟨j, hj⟩] l := by
  induction l with
  | nil => intro i j hi; simp at hi
  | cons a t ih =>
    intro i j hi hj hij
    cases i with
    | zero =>
      cases j with
      | zero => omega
      | succ j' =>
        have hj' : j' < t.length := by simpa using hj
        have hg : (a :: t).get ⟨j' + 1, hj⟩ = t.get ⟨j', hj'⟩ := List.get_cons_succ
        simp only [List.get, hg]
        exact (List.singleton_sublist.2 (List.get_mem t _ _)).cons₂ a
    | succ i' =>
      cases j with
      | zero => omega
      | succ j' =>
        have hi' : i' < t.length := by simpa using hi
        have hj' : j' < t.length := by simpa using hj
        have hrec := ih i' j' hi' hj' (by omega)
        have hgi : (a :: t).get ⟨i' + 1, hi⟩ = t.get ⟨i', hi'⟩ := List.get_cons_succ
        have hgj : (a :: t).get ⟨j' + 1, hj⟩ = t.get ⟨j', hj'⟩ := List.get_cons_succ
        rw [hgi, hgj]
        exact hrec.cons a

/-- In a sorted duplicate-free list, a row with strictly smaller
`manifest_row_index` precedes one with a larger index as a sublist pair. -/
theorem sorted_sublist_pair {l : List (Nat × Record)} (hs : l.Sorted mriLE)
    {p q : Nat × Record} (hp : p ∈ l) (hq : q ∈ l)
    (hlt : p.2.manifest_row_index < q.2.manifest_row_index) :
    List.Sublist [p, q] l := by
  obtain ⟨⟨a, ha⟩, hga⟩ := List.get_of_mem hp
  obtain ⟨⟨b, hb⟩, hgb⟩ := List.get_of_mem hq
  rcases lt_trichotomy a b with h | h | h
  · have hres := sublist_pair_of_get l a b ha hb h
    rwa [hga, hgb] at hres
  · exfalso
    subst h
    have : p = q := hga.symm.trans hgb
    rw [this] at hlt
    omega
  · exfalso
    have hsub := sublist_pair_of_get l b a hb ha h
    rw [hga, hgb] at hsub
    have hpw : List.Pairwise mriLE [q, p] := hs.sublist hsub
    have hle : mriLE q p := (List.pairwise_cons.1 hpw).1 p (List.mem_singleton.2 rfl)
    unfold mriLE at hle
    omega

/-! ### C10: records with missing pair hashes deduplicate against each other -/

/-- C10: among rule-1-to-3 survivors with a missing (`NaN`) `pair_sha256`,
rule 4 treats the missing values as equal — the record with the smallest
`manifest_row_index` is kept (it appears in the included rows), and every
other such survivor is excluded with reason `duplicate_audio_transcript` and
does not appear among the included rows, even though no actual content hash
is shared. -/
theorem missing_pair_dedup (df : List Record)
    (hmri : (df.map (fun r => r.manifest_row_index)).Nodup)
    (r : Record) (hr : r ∈ df)
    (hr1 : rule1Mask r = false) (hr2 : rule2Mask r = false) (hr3 : rule3Mask r = false)
    (hpair : r.pair_sha256 = none)
    (hmin : ∀ s ∈ df, rule1Mask s = false → rule2Mask s = false → rule3Mask s = false →
      s.pair_sha256 = none → r.manifest_row_index ≤ s.manifest_row_index) :
    r ∈ (apply_cleaning_rules df).1 ∧
    ∀ s ∈ df, rule1Mask s = false → rule2Mask s = false → rule3Mask s = false →
      s.pair_sha256 = none → s ≠ r →
        mkExcluded REASON_DUPLICATE_PAIR s ∈ (apply_cleaning_rules df).2 ∧
        s ∉ (apply_cleaning_rules df).1 := by
  obtain ⟨i, hi⟩ := mem_enum_of_mem hr
  have hiS3 : (i, r) ∈ survivors3 df := mem_survivors3.2 ⟨hi, hr1, hr2, hr3⟩
  have hiSorted : (i, r) ∈ sortedSurvivors df := (sortedSurvivors_perm df).symm.subset hiS3
  have hsortNodupFst := sortedSurvivors_fst_nodup df
  have hsortNodup : (sortedSurvivors df).Nodup := hsortNodupFst.of_map
  have hsorted : (sortedSurvivors df).Sorted mriLE := List.sorted_insertionSort _ _
  have hsortS3 : ∀ {p : Nat × Record}, p ∈ sortedSurvivors df → p ∈ survivors3 df :=
    fun hp => (sortedSurvivors_perm df).subset hp
  have hsortdf : ∀ {p : Nat × Record}, p ∈ sortedSurvivors df → p.2 ∈ df := by
    intro p hp
    have hm := List.mem_map_of_mem Prod.snd ((survivors3_sublist df).subset (hsortS3 hp))
    rwa [List.enum_map_snd] at hm
  -- the minimal record is never marked by the duplicate rule
  have hnotdup : (i, r) ∉ dupExcluded df := by
    intro hd
    rcases dupMarks_true_cases (mem_dupExcluded.1 hd) with hseen | ⟨t, hsub, htp⟩
    · simp at hseen
    · have htmem : t ∈ sortedSurvivors df := hsub.subset (by simp)
      have htS3 := hsortS3 htmem
      obtain ⟨htenum, ht1, ht2, ht3⟩ := mem_survivors3.1 htS3
      have htpair : t.2.pair_sha256 = none := by rwa [hpair] at htp
      have hge : r.manifest_row_index ≤ t.2.manifest_row_index :=
        hmin t.2 (hsortdf htmem) ht1 ht2 ht3 htpair
      have hpw : List.Pairwise mriLE [t, (i, r)] := hsorted.sublist hsub
      have hle : mriLE t (i, r) :=
        (List.pairwise_cons.1 hpw).1 (i, r) (List.mem_singleton.2 rfl)
      unfold mriLE at hle
      have hle2 : t.2.manifest_row_index ≤ r.manifest_row_index := hle
      have hteq : t = (i, r) := enum_mri_inj df hmri htenum hi (Nat.le_antisymm hle2 hge)
      rw [hteq] at hsub
      have hne : List.Pairwise (· ≠ ·) [(i, r), (i, r)] := hsortNodup.sublist hsub
      exact (List.pairwise_cons.1 hne).1 (i, r) (List.mem_singleton.2 rfl) rfl
  have hidx : ((dupExcluded df).map (fun q => q.1)).contains i = false := by
    rw [Bool.eq_false_iff]
    intro hc
    have hmemi : i ∈ (dupExcluded df).map (fun q => q.1) := by simpa using hc
    obtain ⟨p, hpd, hp1⟩ := List.mem_map.1 hmemi
    have hpsorted : p ∈ sortedSurvivors df :=
      (dupExcluded_sublist df).subset hpd
    have hpeq : p = (i, r) :=
      List.inj_on_of_nodup_map hsortNodupFst hpsorted hiSorted hp1
    rw [hpeq] at hpd
    exact hnotdup hpd
  have hrinc : r ∈ (apply_cleaning_rules df).1 := by
    simp only [apply_cleaning_rules]
    refine List.mem_map.2 ⟨(i, r), ?_, rfl⟩
    refine List.mem_filter.2 ⟨hiS3, ?_⟩
    show (!((dupExcluded df).map (fun q => q.1)).contains i) = true
    rw [hidx]
    rfl
  refine ⟨hrinc, ?_⟩
  intro s hs hs1 hs2 hs3 hspair hsne
  obtain ⟨j, hj⟩ := mem_enum_of_mem hs
  have hjS3 : (j, s) ∈ survivors3 df := mem_survivors3.2 ⟨hj, hs1, hs2, hs3⟩
  have hjSorted : (j, s) ∈ sortedSurvivors df := (sortedSurvivors_perm df).symm.subset hjS3
  have hle : r.manifest_row_index ≤ s.manifest_row_index :=
    hmin s hs hs1 hs2 hs3 hspair
  have hlt : r.manifest_row_index < s.manifest_row_index := by
    rcases lt_or_eq_of_le hle with h | h
    · exact h
    · exfalso
      have : (i, r) = (j, s) := enum_mri_inj df hmri hi hj h
      exact hsne (congrArg Prod.snd this).symm
  have hsub : List.Sublist [(i, r), (j, s)] (sortedSurvivors df) :=
    sorted_sublist_pair hsorted hiSorted hjSorted hlt
  have hmark : ((j, s), true) ∈ dupMarks [] (sortedSurvivors df) :=
    dupMarks_true_of_earlier hsub (by rw [hpair, hspair])
  have hjd : (j, s) ∈ dupExcluded df := mem_dupExcluded.2 hmark
  refine ⟨excl_mem_dup hjd, ?_⟩
  intro hsin
  simp only [apply_cleaning_rules, List.mem_map] at hsin
  obtain ⟨p, hpinc, hp2⟩ := hsin
  have hpS3 := List.mem_of_mem_filter hpinc
  have hpfil := (List.mem_filter.1 hpinc).2
  have hpenum := (mem_survivors3.1 hpS3).1
  have hpeq : p = (j, s) := enum_mri_inj df hmri hpenum hj (by rw [hp2])
  rw [hpeq] at hpfil
  have hjmem : j ∈ (dupExcluded df).map (fun q => q.1) :=
    List.mem_map.2 ⟨(j, s), hjd, rfl⟩
  simp only [Bool.not_eq_true'] at hpfil
  have : ((dupExcluded df).map (fun q => q.1)).contains j = true := by simpa using hjmem
  rw [this] at hpfil
  exact Bool.noConfusion hpfil

/-- Witness for the missing-pair dedup theorem at a concrete two-record
frame: the lower-index record is kept, the other is excluded as a
duplicate. -/
theorem missing_pair_dedup_witness :
    nonePairRecordA ∈ [nonePairRecordA, nonePairRecordB] ∧
    (nonePairRecordA ∈ (apply_cleaning_rules [nonePairRecordA, nonePairRecordB]).1 ∧
      ∀ s ∈ [nonePairRecordA, nonePairRecordB], rule1Mask s = false → rule2Mask s = false →
        rule3Mask s = false → s.pair_sha256 = none → s ≠ nonePairRecordA →
          mkExcluded REASON_DUPLICATE_PAIR s ∈
            (apply_cleaning_rules [nonePairRecordA, nonePairRecordB]).2 ∧
          s ∉ (apply_cleaning_rules [nonePairRecordA, nonePairRecordB]).1) :=
  ⟨by decide,
    missing_pair_dedup [nonePairRecordA, nonePairRecordB] (by decide) nonePairRecordA
      (by decide) (by decide) (by decide) (by decide) (by decide) (by decide)⟩

/-! ### C1: seed independence of the stratified split -/

/-- C1: the split assignment is seed-independent and deterministic — for any
binned record set and ratios, `stratified_split` called with two different
seed values produces identical outputs (the seed is accepted for provenance
but never read by the assignment). -/
theorem seed_independent_split (rows : List Binned) (rT rV rTe : ℚ) (s1 s2 : ℤ) :
    stratified_split rows rT rV rTe s1 = stratified_split rows rT rV rTe s2 := rfl

/-! ### C9: validator failure policy -/

/-- C9: minimum-sample-count and minimum-duration violations are errors and
fail the result without the override, are downgraded to warnings (with the
errors list left empty and `passed = true`) under `allow_small_splits`, the
violation list is empty exactly when all six thresholds are met, and the
distribution-balance warnings appended by the pipeline never change the
`passed` flag or the errors list. -/
theorem validator_failure_policy (rows : List SplitRow) (dw : List String) :
    (validate_split_sizes rows false).errors = sampleErrors rows ++ durationErrors rows ∧
    (validate_split_sizes rows false).passed = (sampleErrors rows ++ durationErrors rows).isEmpty ∧
    (validate_split_sizes rows true).passed = true ∧
    (validate_split_sizes rows true).errors = [] ∧
    (validate_split_sizes rows true).warnings = sampleErrors rows ++ durationErrors rows ∧
    (sampleErrors rows ++ durationErrors rows = [] ↔
      ¬(splitCount rows SplitLabel.train < MIN_TRAIN_SAMPLES) ∧
      ¬(splitCount rows SplitLabel.val < MIN_VAL_TEST_SAMPLES) ∧
      ¬(splitCount rows SplitLabel.test < MIN_VAL_TEST_SAMPLES) ∧
      ¬(splitDuration rows SplitLabel.train < MIN_TRAIN_DURATION_SEC) ∧
      ¬(splitDuration rows SplitLabel.val < MIN_VAL_TEST_DURATION_SEC) ∧
      ¬(splitDuration rows SplitLabel.test < MIN_VAL_TEST_DURATION_SEC)) ∧
    ∀ v : ValidationResult,
      (apply_distribution_warnings v dw).passed = v.passed ∧
      (apply_distribution_warnings v dw).errors = v.errors := by
  refine ⟨rfl, rfl, rfl, rfl, rfl, ?_, ?_⟩
  · simp only [sampleErrors, durationErrors, List.append_eq_nil, ite_singleton_eq_nil]
    tauto
  · intro v
    unfold apply_distribution_warnings
    split <;> exact ⟨rfl, rfl⟩

/-! ### C7: excluded-list CSV when nothing is excluded -/

/-- C7 (code bug): when cleaning excludes no records the excluded frame has
no columns, so `generate_excluded_csv` writes a single empty line — the five
header names (promised by the spec and by the source comment
"Write empty CSV with headers") are absent. -/
theorem excluded_csv_empty_no_header_eval :
    (apply_cleaning_rules [cleanRecordExample]).2 = [] ∧
    generate_excluded_csv (apply_cleaning_rules [cleanRecordExample]).2 = [""] ∧
    generate_excluded_csv [] = [""] ∧
    String.intercalate "," csvColumnOrder ≠ "" := by decide

/-! ### C8: missing pair hash versus the audio-unreadable rule -/

/-- C8 counterexample: a record with a missing `pair_sha256` but a true
`audio_read_ok` flag is not excluded at all — cleaning includes it, so it is
in particular not excluded with reason `audio_unreadable` as the claim
states. -/
theorem missing_pair_not_excluded_counterexample :
    missingPairRecord.pair_sha256 = none ∧
    (apply_cleaning_rules [missingPairRecord]).2 = [] ∧
    (apply_cleaning_rules [missingPairRecord]).1 = [missingPairRecord] := by decide

/-- C8 amended: cleaning excludes a record with reason `audio_unreadable`
when (and only driven by) its `audio_read_ok` flag being false — the flag
that accompanies an uncomputable audio hash — and such a record never
appears among the included rows; a missing `pair_sha256` alone does not
trigger the `audio_unreadable` exclusion. -/
theorem audio_unreadable_exclusion_amended (df : List Record) (r : Record)
    (hr : r ∈ df) (hflag : r.audio_read_ok = false) :
    mkExcluded REASON_AUDIO_UNREADABLE r ∈ (apply_cleaning_rules df).2 ∧
    r ∉ (apply_cleaning_rules df).1 := by
  obtain ⟨i, hi⟩ := mem_enum_of_mem hr
  have hmask : rule1Mask r = true := by simp [rule1Mask, hflag]
  constructor
  · have h1 : (i, r) ∈ rule1Excluded df :=
      List.mem_filter.2 ⟨hi, hmask⟩
    have h2 : mkExcluded REASON_AUDIO_UNREADABLE r ∈
        (rule1Excluded df).map (fun p => mkExcluded REASON_AUDIO_UNREADABLE p.2) :=
      List.mem_map_of_mem _ h1
    simp only [apply_cleaning_rules]
    exact List.mem_append_left _ (List.mem_append_left _ (List.mem_append_left _ h2))
  · intro hinc
    simp only [apply_cleaning_rules, includedPairs, List.mem_map] at hinc
    obtain ⟨p, hp, hpr⟩ := hinc
    have hs3 := (List.mem_filter.1 hp).1
    have := (mem_survivors3.1 hs3).2.1
    rw [hpr, hmask] at this
    simp at this

/-- Witness for the amended C8 theorem at a concrete one-record frame. -/
theorem audio_unreadable_exclusion_amended_witness :
    unreadableRecord ∈ [unreadableRecord] ∧ unreadableRecord.audio_read_ok = false ∧
    (mkExcluded REASON_AUDIO_UNREADABLE unreadableRecord ∈
        (apply_cleaning_rules [unreadableRecord]).2 ∧
      unreadableRecord ∉ (apply_cleaning_rules [unreadableRecord]).1) :=
  ⟨by decide, by decide,
    audio_unreadable_exclusion_amended [unreadableRecord] unreadableRecord
      (by decide) (by decide)⟩

/-! ### C6: the absent-from-train bin warning -/

/-- The absent-from-train branch of `check_distribution_balance` is dead
code on the categorical `duration_bin` column: the keys of the split's
proportion dict are the full category list, so its not-in-train membership
test never succeeds and the branch contributes no warning on any input. -/
theorem absent_bin_branch_dead (rows : List SplitRow) (cats : List String)
    (lbl : SplitLabel) (name : String) :
    cats.filterMap (fun b =>
      if ¬ cats.contains b ∧ 0 < binProp (splitBins rows lbl) b then
        some (mkAbsentBinWarning b name (binProp (splitBins rows lbl) b))
      else none) = [] := by
  rw [List.filterMap_eq_nil_iff]
  intro b hb
  rw [if_neg]
  rintro ⟨hc, _⟩
  exact hc (by simpa using hb)

/-- C6 (code bug): the promised absent-bin warning never fires.  At a
dataset with a nonempty train split and a duration bin holding a val member
but zero train members (and no deviation past the threshold elsewhere), the
checker returns only the empty-test-split message: no warning names the
absent bin or states that it is missing from train, because the categorical
`value_counts` dicts contain every bin label and the not-in-train test of
`validation.py` line 170 is always false. -/
theorem absent_bin_warning_never_fires_eval :
    "(1, 3]" ∈ absentBinCats ∧
    (∃ r ∈ absentBinRows, r.split = some SplitLabel.val ∧
      r.duration_bin = some "(1, 3]") ∧
    (∀ r ∈ absentBinRows, r.split = some SplitLabel.train →
      r.duration_bin ≠ some "(1, 3]") ∧
    (absentBinRows.filter (fun r => r.split == some SplitLabel.train)).length ≠ 0 ∧
    check_distribution_balance absentBinRows absentBinCats 20 =
      ["Test split is empty"] ∧
    ∀ w ∈ check_distribution_balance absentBinRows absentBinCats 20,
      mentionsSub w "(1, 3]" = false ∧ mentionsSub w "not in train" = false := by
  have htne : (absentBinRows.filter (fun r => r.split == some SplitLabel.train)).length ≠ 0 :=
    by decide
  have hvne : (absentBinRows.filter (fun r => r.split == some SplitLabel.val)).length ≠ 0 :=
    by decide
  have hte : (absentBinRows.filter (fun r => r.split == some SplitLabel.test)).length = 0 :=
    by decide
  have hst : splitBins absentBinRows SplitLabel.train = ["(0, 1]"] := by decide
  have hsv : splitBins absentBinRows SplitLabel.val =
      ["(0, 1]", "(0, 1]", "(0, 1]", "(0, 1]", "(1, 3]"] := by decide
  have hdev : absentBinCats.filterMap (fun b =>
      if 0 < binProp (splitBins absentBinRows SplitLabel.train) b ∧
          |binProp (splitBins absentBinRows SplitLabel.val) b -
            binProp (splitBins absentBinRows SplitLabel.train) b| /
            binProp (splitBins absentBinRows SplitLabel.train) b * 100 > 20 then
        some (mkDeviationWarning b
          (|binProp (splitBins absentBinRows SplitLabel.val) b -
            binProp (splitBins absentBinRows SplitLabel.train) b| /
            binProp (splitBins absentBinRows SplitLabel.train) b * 100)
          (binProp (splitBins absentBinRows SplitLabel.train) b)
          (binProp (splitBins absentBinRows SplitLabel.val) b) "val")
      else none) = [] := by
    rw [List.filterMap_eq_nil_iff]
    intro b hb
    rw [if_neg]
    rintro ⟨h1, h2⟩
    rcases List.mem_cons.1 hb with rfl | hb2
    · rw [hst, hsv] at h2
      unfold binProp at h2
      simp only [List.count_cons, List.count_nil, List.length_cons, List.length_nil] at h2
      norm_num at h2
      rw [if_neg (show ¬("(1, 3]" = "(0, 1]") by decide)] at h2
      have hx : ((0 : ℚ) + 1 + 1 + 1 + 1) / 5 - 1 = -(1/5) := by norm_num
      rw [hx, abs_neg, abs_of_nonneg (by norm_num : (0 : ℚ) ≤ 1/5)] at h2
      norm_num at h2
    · rcases List.mem_cons.1 hb2 with rfl | hb3
      · rw [hst] at h1
        unfold binProp at h1
        simp only [List.count_cons, List.count_nil, List.length_cons, List.length_nil] at h1
        norm_num at h1
        rw [if_neg (show ¬("(0, 1]" = "(1, 3]") by decide)] at h1
        norm_num at h1
      · simp at hb3
  have heval : check_distribution_balance absentBinRows absentBinCats 20 =
      ["Test split is empty"] := by
    unfold check_distribution_balance
    rw [if_neg htne]
    unfold checkSplitAgainstTrain
    rw [if_neg hvne, if_pos hte, hdev, absent_bin_branch_dead]
    rfl
  refine ⟨by decide, by decide, by decide, by decide, heval, ?_⟩
  intro w hw
  rw [heval] at hw
  rw [List.mem_singleton.1 hw]
  exact ⟨by decide, by decide⟩

/-! ### C4: floor-based split sizes -/

/-- With distinct first components, searching a list for the first component
of its `i`-th element finds position `i`. -/
theorem findIdx_fst_get {α : Type} {s : List (Nat × α)} (hn : (s.map Prod.fst).Nodup) :
    ∀ i (h : i < s.length), s.findIdx (fun x => x.1 == (s.get ⟨i, h⟩).1) = i := by
  induction s with
  | nil => intro i h; simp at h
  | cons a t ih =>
    intro i h
    simp only [List.map_cons, List.nodup_cons] at hn
    cases i with
    | zero => simp [List.findIdx_cons]
    | succ j =>
      have hj : j < t.length := by simpa using h
      have hget : ((a :: t).get ⟨j + 1, h⟩) = t.get ⟨j, hj⟩ := List.get_cons_succ
      have hmem : t.get ⟨j, hj⟩ ∈ t := List.get_mem t _ _
      have hne : (a.1 == (t.get ⟨j, hj⟩).1) = false := by
        rw [beq_eq_false_iff_ne]
        intro he
        exact hn.1 (he ▸ List.mem_map_of_mem Prod.fst hmem)
      rw [hget, List.findIdx_cons, hne, cond_false, ih hn.2 j hj]

/-- Counting a positional predicate through the rank map: with distinct
first components, counting rows by a predicate on their sorted rank equals
counting positions directly. -/
theorem countP_findIdx_eq_range {α : Type} :
    ∀ (s : List (Nat × α)) (P : Nat → Bool), (s.map Prod.fst).Nodup →
      s.countP (fun q => P (s.findIdx (fun x => x.1 == q.1))) =
        (List.range s.length).countP P := by
  intro s
  induction s with
  | nil => intro P hn; simp
  | cons a t ih =>
    intro P hn
    simp only [List.map_cons, List.nodup_cons] at hn
    rw [List.countP_cons]
    have hcong : t.countP (fun q => P ((a :: t).findIdx (fun x => x.1 == q.1))) =
        t.countP (fun q => P (t.findIdx (fun x => x.1 == q.1) + 1)) := by
      apply List.countP_congr
      intro q hq
      have hne : (a.1 == q.1) = false := by
        rw [beq_eq_false_iff_ne]
        intro he
        exact hn.1 (he ▸ List.mem_map_of_mem Prod.fst hq)
      rw [List.findIdx_cons, hne, cond_false]
    rw [hcong, ih (fun m => P (m + 1)) hn.2]
    have h0 : List.findIdx (fun x => x.1 == a.1) (a :: t) = 0 := by
      simp [List.findIdx_cons]
    rw [h0, List.length_cons, List.range_succ_eq_map, List.countP_cons, List.countP_map]
    simp [Function.comp_def, Nat.succ_eq_add_one]

/-- Counting positions below a bound in an initial segment. -/
theorem range_countP_lt (n m : Nat) :
    (List.range n).countP (fun i => decide (i < m)) = min m n := by
  induction n with
  | zero => simp
  | succ k ih =>
    rw [List.range_succ, List.countP_append, ih]
    by_cases h : k < m <;> simp [List.countP_cons, h] <;> omega

/-- Counting positions inside a half-open band in an initial segment. -/
theorem range_countP_between (n a b : Nat) :
    (List.range n).countP (fun i => decide (a ≤ i) && decide (i < b)) =
      min b n - min a n := by
  induction n with
  | zero => simp
  | succ k ih =>
    rw [List.range_succ, List.countP_append, ih]
    by_cases h1 : a ≤ k <;> by_cases h2 : k < b <;>
      simp [List.countP_cons, h1, h2] <;> omega

/-- Counting positions at or above a bound in an initial segment. -/
theorem range_countP_ge (n a : Nat) :
    (List.range n).countP (fun i => decide (a ≤ i)) = n - min a n := by
  induction n with
  | zero => simp
  | succ k ih =>
    rw [List.range_succ, List.countP_append, ih]
    by_cases h : a ≤ k <;> simp [List.countP_cons, h] <;> omega

/-- The produced split row keeps the member's duration bin. -/
theorem splitRowOf_bin (rows : List Binned) (rT rV : ℚ) (p : Nat × Binned) :
    (splitRowOf rows rT rV p).duration_bin = p.2.duration_bin := by
  unfold splitRowOf
  split
  next heq => rw [heq]
  next b heq => rw [heq]

/-- Unfolding of the produced split row on a bin member. -/
theorem splitRowOf_of_bin_eq (rows : List Binned) (rT rV : ℚ) {p : Nat × Binned}
    {b : String} (hb : p.2.duration_bin = some b) :
    splitRowOf rows rT rV p =
      ⟨p.2.record, some b,
        some (assignLabel (binSorted rows b).length rT rV
          (((binSorted rows b).findIdx (fun q => q.1 == p.1) : ℤ)))⟩ := by
  unfold splitRowOf
  split
  next heq => rw [heq] at hb; cases hb
  next c heq =>
    rw [heq] at hb
    injection hb with hcb
    subst hcb
    rfl

/-- The bin members as enumerated pairs project onto the bin members. -/
theorem binRowsOf_length (rows : List Binned) (b : String) :
    (binRowsOf rows b).length = binSize rows b := by
  unfold binRowsOf binSize
  have h : rows.filter (fun r => r.duration_bin == some b) =
      (rows.enum.filter (fun q => q.2.duration_bin == some b)).map Prod.snd := by
    conv_lhs => rw [← List.enum_map_snd rows]
    rw [List.filter_map]
    rfl
  rw [h, List.length_map]

/-- Sorting a bin permutes its members. -/
theorem binSorted_perm (rows : List Binned) (b : String) :
    List.Perm (binSorted rows b) (binRowsOf rows b) :=
  List.perm_insertionSort _ _

/-- The sorted bin has the bin's size. -/
theorem binSorted_length (rows : List Binned) (b : String) :
    (binSorted rows b).length = binSize rows b := by
  rw [(binSorted_perm rows b).length_eq]
  exact binRowsOf_length rows b

/-- Frame indices inside one bin are distinct. -/
theorem binRowsOf_fst_nodup (rows : List Binned) (b : String) :
    ((binRowsOf rows b).map Prod.fst).Nodup := by
  have h0 : List.Sublist (rows.enum.filter (fun q => q.2.duration_bin == some b))
      rows.enum := List.filter_sublist _
  have h := h0.map Prod.fst
  rw [List.enum_map_fst] at h
  exact (List.nodup_range _).sublist h

/-- Frame indices in the sorted bin are distinct. -/
theorem binSorted_fst_nodup (rows : List Binned) (b : String) :
    ((binSorted rows b).map Prod.fst).Nodup :=
  (((binSorted_perm rows b).map Prod.fst).symm).nodup (binRowsOf_fst_nodup rows b)

/-- Per-bin per-label count of the splitter output reduced to a count over
sorted positions. -/
theorem countSplit_eq_rangeP (rows : List Binned) (b : String) (rT rV : ℚ)
    (lbl : SplitLabel) :
    countSplit (rows.enum.map (splitRowOf rows rT rV)) b lbl =
      (List.range (binSorted rows b).length).countP
        (fun (i : Nat) => decide (assignLabel (binSorted rows b).length rT rV (i : ℤ) = lbl)) := by
  unfold countSplit
  rw [List.countP_map]
  have hzip : rows.enum.countP
      (fun q => (splitRowOf rows rT rV q).duration_bin == some b &&
        (splitRowOf rows rT rV q).split == some lbl) =
      (binRowsOf rows b).countP (fun q =>
        decide (assignLabel (binSorted rows b).length rT rV
          (((binSorted rows b).findIdx (fun x => x.1 == q.1) : ℤ)) = lbl)) := by
    unfold binRowsOf
    rw [List.countP_filter]
    apply List.countP_congr
    intro q _
    by_cases hb : q.2.duration_bin = some b
    · rw [splitRowOf_of_bin_eq rows rT rV hb]
      simp [hb]
    · have hfb := splitRowOf_bin rows rT rV q
      constructor
      · intro hc
        simp only [Bool.and_eq_true, beq_iff_eq] at hc
        rw [hfb] at hc
        exact absurd hc.1 hb
      · intro hc
        simp only [Bool.and_eq_true, beq_iff_eq] at hc
        exact absurd hc.2 hb
  have hcomp : rows.enum.countP
      ((fun s => s.duration_bin == some b && s.split == some lbl) ∘ splitRowOf rows rT rV) =
      rows.enum.countP
      (fun q => (splitRowOf rows rT rV q).duration_bin == some b &&
        (splitRowOf rows rT rV q).split == some lbl) := rfl
  rw [hcomp, hzip, ((binSorted_perm rows b).symm).countP_eq]
  exact countP_findIdx_eq_range (binSorted rows b)
    (fun (m : Nat) => decide (assignLabel (binSorted rows b).length rT rV (m : ℤ) = lbl))
    (binSorted_fst_nodup rows b)

/-- C4: floor-based split sizes — for every duration bin of size `n`, the
splitter assigns exactly `floor(n * r_train)` rows to train (the first in
ascending `pair_sha256` order), the next `floor(n * r_val)` to val, and all
remaining rows to test, so the three per-bin counts sum to `n` and the
rounding remainder lands in test. -/
theorem stratified_split_floor_counts (rows : List Binned) (b : String)
    (rT rV rTe : ℚ) (seed : ℤ)
    (hT : 0 ≤ rT) (hV : 0 ≤ rV) (hTe : 0 ≤ rTe) (hsum : rT + rV + rTe = 1) :
    ∃ out, stratified_split rows rT rV rTe seed = Except.ok out ∧
      countSplit out b SplitLabel.train = (⌊(binSize rows b : ℚ) * rT⌋).toNat ∧
      countSplit out b SplitLabel.val = (⌊(binSize rows b : ℚ) * rV⌋).toNat ∧
      countSplit out b SplitLabel.train + countSplit out b SplitLabel.val +
        countSplit out b SplitLabel.test = binSize rows b ∧
      ∀ i (h : i < (binSorted rows b).length),
        SplitRow.mk ((binSorted rows b).get ⟨i, h⟩).2.record (some b)
          (some (assignLabel (binSize rows b) rT rV (i : ℤ))) ∈ out := by
  have hok : ratioCheckOK rT rV rTe = true := by
    unfold ratioCheckOK
    rw [hsum]
    norm_num
  refine ⟨rows.enum.map (splitRowOf rows rT rV), ?_, ?_⟩
  · unfold stratified_split
    rw [hok]
    rfl
  set n := binSize rows b with hn
  set nT : ℤ := ⌊(n : ℚ) * rT⌋ with hnT
  set nV : ℤ := ⌊(n : ℚ) * rV⌋ with hnV
  have hT1 : rT ≤ 1 := by linarith
  have hTV1 : rT + rV ≤ 1 := by linarith
  have hnT0 : 0 ≤ nT := Int.floor_nonneg.2 (mul_nonneg (by positivity) hT)
  have hnV0 : 0 ≤ nV := Int.floor_nonneg.2 (mul_nonneg (by positivity) hV)
  have hfT : (nT : ℚ) ≤ (n : ℚ) * rT := Int.floor_le _
  have hfV : (nV : ℚ) ≤ (n : ℚ) * rV := Int.floor_le _
  have hsumQ : ((nT + nV : ℤ) : ℚ) ≤ (n : ℚ) := by
    push_cast
    nlinarith
  have hTVn : nT + nV ≤ (n : ℤ) := by exact_mod_cast hsumQ
  have hTn : nT ≤ (n : ℤ) := by
    have : (nT : ℚ) ≤ (n : ℚ) := by nlinarith
    exact_mod_cast this
  have hlen : (binSorted rows b).length = n := binSorted_length rows b
  have hcountT : countSplit (rows.enum.map (splitRowOf rows rT rV)) b SplitLabel.train =
      nT.toNat := by
    rw [countSplit_eq_rangeP, hlen]
    have hc : (List.range n).countP
        (fun (i : Nat) => decide (assignLabel n rT rV (i : ℤ) = SplitLabel.train)) =
        (List.range n).countP (fun i => decide (i < nT.toNat)) := by
      apply List.countP_congr
      intro i _
      unfold assignLabel
      rw [← hnT]
      split_ifs with h1 h2 <;> simp <;> omega
    rw [hc, range_countP_lt]
    omega
  have hcountV : countSplit (rows.enum.map (splitRowOf rows rT rV)) b SplitLabel.val =
      nV.toNat := by
    rw [countSplit_eq_rangeP, hlen]
    have hc : (List.range n).countP
        (fun (i : Nat) => decide (assignLabel n rT rV (i : ℤ) = SplitLabel.val)) =
        (List.range n).countP
          (fun i => decide (nT.toNat ≤ i) && decide (i < nT.toNat + nV.toNat)) := by
      apply List.countP_congr
      intro i _
      unfold assignLabel
      rw [← hnT, ← hnV]
      split_ifs with h1 h2 <;> simp <;> omega
    rw [hc, range_countP_between]
    omega
  have hcountTe : countSplit (rows.enum.map (splitRowOf rows rT rV)) b SplitLabel.test =
      n - nT.toNat - nV.toNat := by
    rw [countSplit_eq_rangeP, hlen]
    have hc : (List.range n).countP
        (fun (i : Nat) => decide (assignLabel n rT rV (i : ℤ) = SplitLabel.test)) =
        (List.range n).countP (fun i => decide (nT.toNat + nV.toNat ≤ i)) := by
      apply List.countP_congr
      intro i _
      unfold assignLabel
      rw [← hnT, ← hnV]
      split_ifs with h1 h2 <;> simp <;> omega
    rw [hc, range_countP_ge]
    omega
  refine ⟨hcountT, hcountV, ?_, ?_⟩
  · rw [hcountT, hcountV, hcountTe]
    omega
  · intro i h
    set q := (binSorted rows b).get ⟨i, h⟩ with hq
    have hqsorted : q ∈ binSorted rows b := List.get_mem _ _ _
    have hqbrows : q ∈ binRowsOf rows b :=
      (List.perm_insertionSort pairLE (binRowsOf rows b)).subset hqsorted
    have hqenum : q ∈ rows.enum := List.mem_of_mem_filter hqbrows
    have hqbin : q.2.duration_bin = some b := by
      have := (List.mem_filter.1 hqbrows).2
      simpa using this
    have hidx : (binSorted rows b).findIdx (fun x => x.1 == q.1) = i :=
      findIdx_fst_get (binSorted_fst_nodup rows b) i h
    have hval : splitRowOf rows rT rV q =
        SplitRow.mk q.2.record (some b)
          (some (assignLabel (binSize rows b) rT rV (i : ℤ))) := by
      rw [splitRowOf_of_bin_eq rows rT rV hqbin, hidx, binSorted_length]
    exact hval ▸ List.mem_map_of_mem (splitRowOf rows rT rV) hqenum

/-- Witness for the floor-count theorem at a concrete five-row bin. -/
theorem stratified_split_floor_counts_witness :
    ((0 : ℚ) ≤ 3/5 ∧ (0 : ℚ) ≤ 1/5 ∧ (3/5 + 1/5 + 1/5 : ℚ) = 1) ∧
    (∃ out, stratified_split fiveBinRows (3/5) (1/5) (1/5) 0 = Except.ok out ∧
      countSplit out "B" SplitLabel.train = (⌊(binSize fiveBinRows "B" : ℚ) * (3/5)⌋).toNat ∧
      countSplit out "B" SplitLabel.val = (⌊(binSize fiveBinRows "B" : ℚ) * (1/5)⌋).toNat ∧
      countSplit out "B" SplitLabel.train + countSplit out "B" SplitLabel.val +
        countSplit out "B" SplitLabel.test = binSize fiveBinRows "B" ∧
      ∀ i (h : i < (binSorted fiveBinRows "B").length),
        SplitRow.mk ((binSorted fiveBinRows "B").get ⟨i, h⟩).2.record (some "B")
          (some (assignLabel (binSize fiveBinRows "B") (3/5) (1/5) (i : ℤ))) ∈ out) :=
  ⟨⟨by norm_num, by norm_num, by norm_num⟩,
    stratified_split_floor_counts fiveBinRows "B" (3/5) (1/5) (1/5) 0
      (by norm_num) (by norm_num) (by norm_num) (by norm_num)⟩

/-! ### C5: temporal check gating and crossing count -/

/-- The implementation's crossing counter agrees with the specification-side
count of clusters holding both a train and a test row. -/
theorem crossing_eq_spec (cl : List (SplitRow × Nat)) :
    find_clusters_crossing_splits cl = crossingSpecCount cl := by
  unfold find_clusters_crossing_splits crossingSpecCount clusterIds
  apply List.countP_congr
  intro c _
  simp only [Bool.and_eq_true, List.any_eq_true, List.mem_filter, beq_iff_eq,
    decide_eq_true_eq]
  tauto

/-- C5: temporal check gating and crossing count — when fewer than 50% of
rows carry a timestamp the report is `skipped_insufficient_timestamps` with a
null crossing count; with coverage of at least 50% the status is `completed`
and the reported crossing count is exactly the number of session clusters
containing at least one train-assigned and at least one test-assigned row
(clusters meeting only train and val, or only val, are not counted). -/
theorem temporal_gating_and_crossing (rows : List SplitRow) :
    (temporal_leakage_report rows).temporal_check_status =
      (if timestampCoverage rows < 1/2 then "skipped_insufficient_timestamps"
        else "completed") ∧
    (temporal_leakage_report rows).temporal_clusters_crossing_splits =
      (if timestampCoverage rows < 1/2 then none
        else some (crossingSpecCount (sessionClusters rows DEFAULT_SESSION_GAP_MS))) := by
  by_cases hcov : timestampCoverage rows < 1/2
  · simp only [temporal_leakage_report, if_pos hcov]
    constructor <;> trivial
  · simp only [temporal_leakage_report, detect_temporal_clusters, if_neg hcov]
    refine ⟨trivial, ?_⟩
    exact congrArg some (crossing_eq_spec _)

end DatasetVersioning
